import Mathlib

/-!
Verification of the CDN upload & lifecycle manager of this repository.

The development shallowly embeds the three API routes that implement the
subsystem:

* `src/app/api/upload-chunked/route.ts` — chunked ingestion
  (`initializeUpload`, `uploadChunk`, `completeUpload`), namespace
  `ChunkedUpload` below;
* `src/app/api/files/[filename]/route.ts` — the single-shot upload handler
  with the image compression pipeline, and the filename resolver, namespaces
  `SingleShot` and `Registry`;
* `src/app/api/upload/route.ts` — the blob-store client
  (`uploadToGitHub`) and the lazy garbage collector
  (`cleanupExpiredFiles`), namespaces `BlobStore` and `Registry`.

Buffers are modelled as lists of bytes (`List Nat`), the per-session chunk
files on disk as a partial map from the parsed chunk index (`Int`, since the
route parses any integer) to the stored bytes, and timestamps as integer
epoch milliseconds, which is how JavaScript `Date` values compare.
-/

namespace ChunkedUpload

/-- A byte buffer (`Buffer` in the source). -/
abbrev Bytes := List Nat

/-- `ChunkMetadata` of `upload-chunked/route.ts` (the fields that the
chunk/complete logic reads: `totalChunks` and the arrival-order list
`uploadedChunks`; `parseInt` can produce any integer, hence `List Int`). -/
structure ChunkMetadata where
  totalChunks : Nat
  uploadedChunks : List Int
  deriving DecidableEq

/-- The temp directory of one session: `chunk_${i}` files keyed by index. -/
abbrev ChunkStore := Int → Option Bytes

/-- Fresh temp directory created by `initializeUpload`. -/
def emptyStore : ChunkStore := fun _ => none

/-- `initializeUpload` stores metadata with an empty `uploadedChunks` list. -/
def initSession (totalChunks : Nat) : ChunkMetadata :=
  { totalChunks := totalChunks, uploadedChunks := [] }

/-- `writeFile(chunkPath, chunkBuffer)`: overwrites the file `chunk_${idx}`. -/
def writeChunkFile (st : ChunkStore) (idx : Int) (bytes : Bytes) : ChunkStore :=
  fun j => if j = idx then some bytes else st j

/-- `uploadChunk` (lines 103–142): saves the chunk file, then records the
index in `uploadedChunks` unless it is already present.  There is no
comparison of `chunkIndex` against `totalChunks`. -/
def uploadChunk (m : ChunkMetadata) (st : ChunkStore) (idx : Int) (bytes : Bytes) :
    ChunkMetadata × ChunkStore :=
  ({ m with
      uploadedChunks :=
        if idx ∈ m.uploadedChunks then m.uploadedChunks
        else m.uploadedChunks ++ [idx] },
    writeChunkFile st idx bytes)

/-- A sequence of `uploadChunk` requests, in arrival order. -/
def runUploads (m : ChunkMetadata) (st : ChunkStore) (events : List (Int × Bytes)) :
    ChunkMetadata × ChunkStore :=
  events.foldl (fun p e => uploadChunk p.1 p.2 e.1 e.2) (m, st)

/-- The read loop of `completeUpload` (lines 164–169): `readFile` of
`chunk_${i}` for `i = 0 .. n-1` in index order; a missing file throws,
modelled as `none`. -/
def readChunks (st : ChunkStore) : Nat → Option (List Bytes)
  | 0 => some []
  | n + 1 =>
    match readChunks st n, st (n : Int) with
    | some l, some b => some (l ++ [b])
    | _, _ => none

/-- The cleanup loops of `completeUpload` (lines 231–247 and 268–275):
`unlink` of `chunk_${i}` for `i = 0 .. n-1` only. -/
def cleanupChunks (st : ChunkStore) (n : Nat) : ChunkStore :=
  fun j => if 0 ≤ j ∧ j < (n : Int) then none else st j

inductive CompleteOutcome where
  /-- The 400 response `Missing chunks. Got …, expected …` (lines 152–157). -/
  | incomplete (got expected : Nat)
  /-- Success: `finalBuffer` was uploaded and the 200 response sent. -/
  | ok (buffer : Bytes)
  /-- The catch-all 500 response after a thrown error, here the `readFile`
  of a nonexistent chunk file (lines 264–285). -/
  | readError
  deriving DecidableEq

structure CompleteResult where
  outcome : CompleteOutcome
  /-- Whether the `uploadRegistry` entry for the session is still present. -/
  sessionKept : Bool
  /-- The chunk files after the call. -/
  store : ChunkStore
  /-- Whether a row was inserted into `cdn_files` (lines 212–229). -/
  recordWritten : Bool

/-- `completeUpload` (lines 144–286).  The guard compares only
`uploadedChunks.length` with `totalChunks`; it is placed before the
`try` block, so a failed guard performs no cleanup.  Both the success path
and the catch path unlink chunks `0 .. totalChunks-1` and delete the
registry entry; the Supabase insert happens only after a successful merge
and blob upload. -/
def completeUpload (m : ChunkMetadata) (st : ChunkStore) : CompleteResult :=
  if m.uploadedChunks.length ≠ m.totalChunks then
    { outcome := .incomplete m.uploadedChunks.length m.totalChunks
      sessionKept := true
      store := st
      recordWritten := false }
  else
    match readChunks st m.totalChunks with
    | some chunks =>
        { outcome := .ok chunks.flatten
          sessionKept := false
          store := cleanupChunks st m.totalChunks
          recordWritten := true }
    | none =>
        { outcome := .readError
          sessionKept := false
          store := cleanupChunks st m.totalChunks
          recordWritten := false }

/-- One whole session: `init`, a sequence of chunk requests, `complete`. -/
def runSession (totalChunks : Nat) (events : List (Int × Bytes)) : CompleteResult :=
  let p := runUploads (initSession totalChunks) emptyStore events
  completeUpload p.1 p.2

end ChunkedUpload

namespace JsString

/-- `String.prototype.startsWith(pat)` of JavaScript, modelled on the
character data (Lean's own `String.startsWith` is defined by well-founded
recursion and does not evaluate inside the kernel). -/
def strStartsWith (s pat : String) : Bool := pat.data.isPrefixOf s.data

/-- `String.prototype.split(sep)` for a one-character separator, on the
character data. -/
def splitOnChar (c : Char) : List Char → List (List Char)
  | [] => [[]]
  | a :: rest =>
    let r := splitOnChar c rest
    if a = c then [] :: r
    else (a :: r.headD []) :: r.tail

/-- `name.split('.').pop() || ''` of the upload handlers: the last
dot-separated component of the name. -/
def extOf (name : String) : String := String.mk ((splitOnChar '.' name.data).getLastD [])

/-- `filename.includes('..')`. -/
def includesDotDot (name : String) : Bool := decide (List.IsInfix ['.', '.'] name.data)

end JsString

namespace SingleShot

open JsString

/-- A byte buffer (`Buffer` in the source). -/
abbrev Bytes := List Nat

/-- The result shape returned by `compressImage` in
`files/[filename]/route.ts` (lines 434–464). -/
structure CompressionResult where
  success : Bool
  outputBuffer : Option Bytes
  originalSize : Nat
  compressedSize : Nat
  deriving DecidableEq

/-- `compressImage` (lines 434–464).  The sharp encoder (png / webp / jpeg
re-encode at quality 80) is external native code, modelled by the parameter
`sharpEncode`; `none` models a thrown encoding error, which the function
catches, returning `success := false` with `compressedSize := 0`. -/
def compressImage (sharpEncode : Bytes → String → Option Bytes)
    (inputBuffer : Bytes) (mimeType : String) : CompressionResult :=
  match sharpEncode inputBuffer mimeType with
  | some out =>
      { success := true
        outputBuffer := some out
        originalSize := inputBuffer.length
        compressedSize := out.length }
  | none =>
      { success := false
        outputBuffer := none
        originalSize := inputBuffer.length
        compressedSize := 0 }

/-- `UploadedFile` of `files/[filename]/route.ts` (lines 321–332), dates as
epoch milliseconds; `compressionRatio` is absent (`undefined`) when the
file was not compressed. -/
structure UploadedFile where
  id : String
  originalName : String
  fileName : String
  size : Nat
  mimeType : String
  uploadDate : Int
  expiryDate : Int
  githubUrl : String
  compressed : Bool
  compressionRatio : Option Int
  deriving DecidableEq

/-- `14 * 24 * 60 * 60 * 1000` — the 14-day retention window. -/
def retentionMs : Int := 14 * 24 * 60 * 60 * 1000

structure ProcessResult where
  /-- The buffer handed to `uploadToGitHub`. -/
  uploadedBuffer : Bytes
  finalFileName : String
  record : UploadedFile

/-- The state of the mutable locals `fileBuffer`, `finalFileName`,
`compressed`, `compressionRatio` after the compression decision. -/
structure CompressOutcome where
  finalBuffer : Bytes
  finalFileName : String
  compressed : Bool
  ratio : ℚ

/-- The compression decision of the upload handler `POST` of
`files/[filename]/route.ts` (lines 543–563): the video branch is a logged
no-op, the image branch (`size > 1MB`) calls `compressImage` and keeps its
output only when `success` holds and the output is strictly smaller;
`ratio` is `((originalSize - compressedSize) / originalSize) * 100`
(the float arithmetic is modelled exactly over `ℚ`). -/
def compressStep (sharpEncode : Bytes → String → Option Bytes)
    (fileId ext fileName fileType : String) (fileBuffer : Bytes) : CompressOutcome :=
  if strStartsWith fileType "video/" = true ∧ fileBuffer.length > 50 * 1024 * 1024 then
    ⟨fileBuffer, fileName, false, 0⟩
  else if strStartsWith fileType "image/" = true ∧ fileBuffer.length > 1024 * 1024 then
    let result := compressImage sharpEncode fileBuffer fileType
    match result.outputBuffer with
    | some out =>
        if result.success = true ∧ result.compressedSize < result.originalSize then
          ⟨out, fileId ++ "_compressed." ++ ext, true,
            (((result.originalSize : ℚ) - (result.compressedSize : ℚ))
              / (result.originalSize : ℚ)) * 100⟩
        else ⟨fileBuffer, fileName, false, 0⟩
    | none => ⟨fileBuffer, fileName, false, 0⟩
  else ⟨fileBuffer, fileName, false, 0⟩

/-- The upload handler `POST` of `files/[filename]/route.ts`
(lines 517–601), from the point where the buffer is in memory to the
persisted `UploadedFile` record: the record stores the post-compression
size and, when compression was applied, `Math.round` of the percentage
`ratio` as `compressionRatio` (lines 572–583). -/
def processUpload (sharpEncode : Bytes → String → Option Bytes)
    (blobUrl : String → String) (fileId : String) (nowMs : Int)
    (fileName0 fileType : String) (fileBuffer : Bytes) : ProcessResult :=
  let ext := extOf fileName0
  let fileName := fileId ++ "." ++ ext
  let s := compressStep sharpEncode fileId ext fileName fileType fileBuffer
  { uploadedBuffer := s.finalBuffer
    finalFileName := s.finalFileName
    record :=
      { id := fileId
        originalName := fileName0
        fileName := s.finalFileName
        size := s.finalBuffer.length
        mimeType := fileType
        uploadDate := nowMs
        expiryDate := nowMs + retentionMs
        githubUrl := blobUrl s.finalFileName
        compressed := s.compressed
        compressionRatio := if s.compressed then some (round s.ratio) else none } }

/-- A JPEG payload one byte over the 1 MB compression threshold. -/
def bigImage : Bytes := List.replicate (1024 * 1024 + 1) 0

/-- An encoder behaviour that shrinks the image to a single byte, as the
sharp re-encode typically does on large flat input. -/
def shrinkEncoder : Bytes → String → Option Bytes := fun _ _ => some [0]

/-- A 2 MB JPEG payload. -/
def img2MB : Bytes := List.replicate (2 * 1024 * 1024) 0

/-- An encoder behaviour that halves the image. -/
def halfEncoder : Bytes → String → Option Bytes :=
  fun _ _ => some (List.replicate (1024 * 1024) 0)

end SingleShot

namespace BlobStore

/-- An error raised by a GitHub API call: the 404 of a missing release, or
any other failure (bad credentials, network, rate limit). -/
inductive ApiError where
  | notFound
  | authError
  | networkError
  deriving DecidableEq

structure Release where
  id : Nat
  deriving DecidableEq

/-- How the get-or-create block finished. -/
inductive EnsureOutcome where
  /-- `getReleaseByTag` succeeded. -/
  | gotExisting (r : Release)
  /-- `getReleaseByTag` threw and `createRelease` succeeded. -/
  | created (r : Release)
  /-- `getReleaseByTag` threw and `createRelease` threw too; the error
  escapes to the surrounding handler. -/
  | creationFailed (e : ApiError)
  deriving DecidableEq

/-- The get-or-create release block of `uploadToGitHub` in
`upload/route.ts` (lines 122–145), also repeated in
`upload-chunked/route.ts` (lines 184–201): `try { getReleaseByTag } catch
(error) { createRelease }`.  The `catch` binds every error, without
inspecting its status code.  The two API calls are external, modelled as
`Except` parameters. -/
def ensureRelease (getReleaseByTag : Except ApiError Release)
    (createRelease : Except ApiError Release) : EnsureOutcome :=
  match getReleaseByTag with
  | .ok r => .gotExisting r
  | .error _ =>
    match createRelease with
    | .ok r => .created r
    | .error e => .creationFailed e

end BlobStore

namespace Naming

/-- `${fileId}.${ext}` where `fileId = Date.now().toString()`
(`upload/route.ts` lines 188–191, `upload-chunked/route.ts` line 76 with
line 174–176).  The id is the decimal milliseconds string, passed in as an
opaque dot-free token. -/
def generateFileName (fileId : String) (originalName : String) : String :=
  fileId ++ "." ++ JsString.extOf originalName

end Naming

namespace Registry

/-- `UploadedFile` of `upload/route.ts` (lines 16–25), dates as epoch
milliseconds (JavaScript `Date` comparisons are millisecond comparisons). -/
structure FileRecord where
  id : String
  originalName : String
  fileName : String
  size : Nat
  mimeType : String
  uploadDate : Int
  expiryDate : Int
  githubUrl : String
  deriving DecidableEq

/-- `deleteFileFromRegistry` (in-memory fallback, `upload/route.ts`
line 91): keeps every record whose id differs. -/
def deleteFileFromRegistry (reg : List FileRecord) (fileId : String) :
    List FileRecord :=
  reg.filter fun f => f.id ≠ fileId

/-- The loop body of `cleanupExpiredFiles` (`upload/route.ts`
lines 95–112): iterate over a snapshot of the registry and delete every
record whose `expiryDate` is at or before `now`. -/
def cleanupPass (now : Int) (reg : List FileRecord)
    (snapshot : List FileRecord) : List FileRecord :=
  snapshot.foldl
    (fun r f => if f.expiryDate ≤ now then deleteFileFromRegistry r f.id else r) reg

/-- `cleanupExpiredFiles`: the snapshot is the registry itself. -/
def cleanupExpiredFiles (reg : List FileRecord) (now : Int) : List FileRecord :=
  cleanupPass now reg reg

/-- The `GET` list endpoint (`upload/route.ts` lines 230–239): run the
garbage collector, then return the registry. -/
def listFiles (reg : List FileRecord) (now : Int) : List FileRecord :=
  cleanupExpiredFiles reg now

/-- `getFileByFilename` (`files/[filename]/route.ts` lines 12–30,
in-memory fallback): first record with the given `fileName`. -/
def getFileByFilename (reg : List FileRecord) (name : String) :
    Option FileRecord :=
  reg.find? fun f => f.fileName = name

inductive ResolveResult where
  /-- 400 `Invalid filename` (empty name or one containing `..`). -/
  | invalidFilename
  /-- 404 `File not found` (missing record or falsy `githubUrl`). -/
  | notFound
  /-- 404 `File has expired`. -/
  | expired
  /-- 307 redirect to the blob URL. -/
  | redirect (url : String)
  deriving DecidableEq

/-- The resolver `GET` of `files/[filename]/route.ts` (lines 32–64):
validate the name, look up the registry, then enforce expiry
(`expiryDate <= now`) before redirecting. -/
def resolveFile (reg : List FileRecord) (name : String) (now : Int) :
    ResolveResult :=
  if name = "" ∨ JsString.includesDotDot name = true then .invalidFilename
  else
    match getFileByFilename reg name with
    | none => .notFound
    | some f =>
      if f.githubUrl = "" then .notFound
      else if f.expiryDate ≤ now then .expired
      else .redirect f.githubUrl

end Registry

namespace ChunkedUpload

theorem runUploads_cons (m : ChunkMetadata) (st : ChunkStore) (e : Int × Bytes)
    (events : List (Int × Bytes)) :
    runUploads m st (e :: events) =
      runUploads (uploadChunk m st e.1 e.2).1 (uploadChunk m st e.1 e.2).2 events := rfl

theorem runUploads_totalChunks (m : ChunkMetadata) (st : ChunkStore)
    (events : List (Int × Bytes)) :
    (runUploads m st events).1.totalChunks = m.totalChunks := by
  induction events generalizing m st with
  | nil => rfl
  | cons e es ih => rw [runUploads_cons]; exact ih _ _

theorem runUploads_store_not_sent (m : ChunkMetadata) (st : ChunkStore)
    (events : List (Int × Bytes)) (idx : Int)
    (h : idx ∉ events.map Prod.fst) :
    (runUploads m st events).2 idx = st idx := by
  induction events generalizing m st with
  | nil => rfl
  | cons e es ih =>
    simp only [List.map_cons, List.mem_cons, not_or] at h
    rw [runUploads_cons, ih _ _ h.2]
    simp [uploadChunk, writeChunkFile, h.1]

theorem runUploads_store_sent (m : ChunkMetadata) (st : ChunkStore)
    (events : List (Int × Bytes)) (idx : Int) (b : Bytes)
    (hnd : (events.map Prod.fst).Nodup) (hmem : (idx, b) ∈ events) :
    (runUploads m st events).2 idx = some b := by
  induction events generalizing m st with
  | nil => cases hmem
  | cons e es ih =>
    simp only [List.map_cons, List.nodup_cons] at hnd
    rcases List.mem_cons.1 hmem with he | hes
    · subst he
      rw [runUploads_cons, runUploads_store_not_sent _ _ _ _ hnd.1]
      simp [uploadChunk, writeChunkFile]
    · exact ih _ _ hnd.2 hes

theorem runUploads_uploadedChunks (m : ChunkMetadata) (st : ChunkStore)
    (events : List (Int × Bytes))
    (hnd : (events.map Prod.fst).Nodup)
    (hdis : ∀ e ∈ events, e.1 ∉ m.uploadedChunks) :
    (runUploads m st events).1.uploadedChunks =
      m.uploadedChunks ++ events.map Prod.fst := by
  induction events generalizing m st with
  | nil => simp [runUploads]
  | cons e es ih =>
    simp only [List.map_cons, List.nodup_cons] at hnd
    have hnotm : e.1 ∉ m.uploadedChunks := hdis e (List.mem_cons_self _ _)
    rw [runUploads_cons]
    have hm' : (uploadChunk m st e.1 e.2).1.uploadedChunks =
        m.uploadedChunks ++ [e.1] := by
      simp [uploadChunk, hnotm]
    rw [ih _ _ hnd.2]
    · rw [hm']; simp
    · intro e' he'
      rw [hm']
      simp only [List.mem_append, List.mem_singleton, not_or]
      refine ⟨hdis e' (List.mem_cons_of_mem _ he'), ?_⟩
      intro hc
      exact hnd.1 (hc ▸ List.mem_map_of_mem Prod.fst he')

theorem readChunks_all (st : ChunkStore) (f : Nat → Bytes) (n : Nat)
    (h : ∀ i, i < n → st (i : Int) = some (f i)) :
    readChunks st n = some ((List.range n).map f) := by
  induction n with
  | zero => rfl
  | succ k ih =>
    have hk := h k (Nat.lt_succ_self k)
    rw [readChunks, ih (fun i hi => h i (Nat.lt_succ_of_lt hi)), hk,
      List.range_succ, List.map_append]
    rfl

theorem readChunks_missing (st : ChunkStore) (n i : Nat) (hi : i < n)
    (h : st (i : Int) = none) : readChunks st n = none := by
  induction n with
  | zero => cases hi
  | succ k ih =>
    rcases Nat.lt_succ_iff_lt_or_eq.1 hi with hlt | heq
    · rw [readChunks, ih hlt]
    · subst heq
      rw [readChunks, h]
      cases readChunks st i <;> rfl

theorem getD_range_map (l : List Bytes) :
    (List.range l.length).map (fun i => l.getD i []) = l := by
  induction l with
  | nil => rfl
  | cons a t ih =>
    rw [List.length_cons, List.range_succ_eq_map, List.map_cons, List.map_map]
    simp only [Function.comp, List.getD_cons_zero, List.getD_cons_succ]
    rw [show (fun i => t.getD i []) = fun i => List.getD t i [] from rfl] at ih
    exact congrArg (a :: ·) ih

/-- C1: for every upload session whose chunks `0 .. totalChunks-1` were each
received exactly once, in any arrival order, `complete()` concatenates the
stored chunks in strict index order and produces a buffer byte-identical to
the original input (the flattening of the pieces the input was split into). -/
theorem chunked_upload_reassembles_in_order (pieces : List Bytes) (order : List Nat)
    (hperm : order.Perm (List.range pieces.length)) :
    (runSession pieces.length
        (order.map fun i : Nat => ((i : Int), pieces.getD i []))).outcome =
      CompleteOutcome.ok pieces.flatten := by
  set n := pieces.length with hn
  set events := order.map fun i : Nat => ((i : Int), pieces.getD i []) with hev
  have hfst : events.map Prod.fst = order.map fun i : Nat => (i : Int) := by
    simp [hev, List.map_map, Function.comp]
  have hordnd : order.Nodup := hperm.nodup_iff.2 (List.nodup_range _)
  have hnd : (events.map Prod.fst).Nodup := by
    rw [hfst]
    exact hordnd.map (fun a b h => by exact_mod_cast h)
  have hlen : (events.map Prod.fst).length = n := by
    rw [hfst, List.length_map, hperm.length_eq, List.length_range]
  have hup : (runUploads (initSession n) emptyStore events).1.uploadedChunks
      = events.map Prod.fst := by
    have h := runUploads_uploadedChunks (initSession n) emptyStore events hnd
      (by intro e _; simp [initSession])
    simpa [initSession] using h
  have hguard : (runUploads (initSession n) emptyStore events).1.uploadedChunks.length
      = (runUploads (initSession n) emptyStore events).1.totalChunks := by
    rw [hup, hlen, runUploads_totalChunks]
    rfl
  have hstore : ∀ i, i < n →
      (runUploads (initSession n) emptyStore events).2 (i : Int)
        = some (pieces.getD i []) := by
    intro i hi
    apply runUploads_store_sent _ _ _ _ _ hnd
    rw [hev]
    exact List.mem_map_of_mem _ (hperm.mem_iff.2 (List.mem_range.2 hi))
  have hread : readChunks (runUploads (initSession n) emptyStore events).2
      (runUploads (initSession n) emptyStore events).1.totalChunks = some pieces := by
    rw [runUploads_totalChunks]
    show readChunks _ n = _
    rw [readChunks_all _ (fun i => pieces.getD i []) n hstore, hn, getD_range_map]
  show (completeUpload (runUploads (initSession n) emptyStore events).1
      (runUploads (initSession n) emptyStore events).2).outcome = _
  unfold completeUpload
  rw [if_neg (fun h => h hguard), hread]

theorem chunked_upload_reassembles_in_order_witness :
    ([2, 0, 1] : List Nat).Perm (List.range ([[1, 2], [3], [4, 5]] : List Bytes).length) ∧
    (runSession ([[1, 2], [3], [4, 5]] : List Bytes).length
        (([2, 0, 1] : List Nat).map
          fun i : Nat => ((i : Int), ([[1, 2], [3], [4, 5]] : List Bytes).getD i []))).outcome =
      CompleteOutcome.ok ([1, 2, 3, 4, 5] : Bytes) :=
  ⟨by decide,
    chunked_upload_reassembles_in_order [[1, 2], [3], [4, 5]] [2, 0, 1] (by decide)⟩

/-- C10: `uploadChunk` performs no range validation of the chunk index
against `totalChunks`: any parsed integer index, negative or at or above
`totalChunks`, is written to the store and recorded exactly once in
`uploadedChunks`, so the completeness guard of `completeUpload` compares only
the cardinality of received indices; concretely, a session with
`totalChunks = 2` that received indices `0` and `5` passes the guard and
`completeUpload` reaches the read of the nonexistent file `chunk_1`,
failing with the generic read error. -/
theorem uploadChunk_no_range_validation (m : ChunkMetadata) (st : ChunkStore)
    (idx : Int) (b : Bytes) :
    idx ∈ (uploadChunk m st idx b).1.uploadedChunks ∧
    (uploadChunk m st idx b).2 idx = some b ∧
    (idx ∉ m.uploadedChunks →
      (uploadChunk m st idx b).1.uploadedChunks = m.uploadedChunks ++ [idx]) ∧
    (idx ∈ m.uploadedChunks →
      (uploadChunk m st idx b).1.uploadedChunks = m.uploadedChunks) ∧
    (runSession 2 [((0 : Int), [10]), ((5 : Int), [20])]).outcome =
      CompleteOutcome.readError := by
  refine ⟨?_, ?_, ?_, ?_, by decide⟩
  · by_cases h : idx ∈ m.uploadedChunks <;> simp [uploadChunk, h]
  · simp [uploadChunk, writeChunkFile]
  · intro h; simp [uploadChunk, h]
  · intro h; simp [uploadChunk, h]

theorem uploadChunk_no_range_validation_witness :
    (5 : Int) ∈ (uploadChunk (initSession 2) emptyStore 5 [20]).1.uploadedChunks ∧
    (uploadChunk (initSession 2) emptyStore 5 [20]).1.uploadedChunks = [] ++ [(5 : Int)] :=
  ⟨(uploadChunk_no_range_validation (initSession 2) emptyStore 5 [20]).1,
    (uploadChunk_no_range_validation (initSession 2) emptyStore 5 [20]).2.2.1 (by decide)⟩

/-- C2 counterexample: a session with `totalChunks = 2` that received the
indices `0` and `5` has the in-range index `1` missing, yet `complete()`
does not fail with the `Missing chunks` (IncompleteUpload) response: the
cardinality guard passes and the call fails with the generic read error
instead (no `FileRecord` is written either way). -/
theorem complete_missing_index_not_incomplete_counterexample :
    (runUploads (initSession 2) emptyStore
        [((0 : Int), [10]), ((5 : Int), [20])]).1.uploadedChunks = [0, 5] ∧
    (1 : Int) ∉ (runUploads (initSession 2) emptyStore
        [((0 : Int), [10]), ((5 : Int), [20])]).1.uploadedChunks ∧
    (runSession 2 [((0 : Int), [10]), ((5 : Int), [20])]).outcome =
      CompleteOutcome.readError ∧
    (runSession 2 [((0 : Int), [10]), ((5 : Int), [20])]).recordWritten = false := by
  refine ⟨by decide, by decide, by decide, by decide⟩

/-- C2 amended: for every session in which some in-range index `i` was never
sent, `complete()` fails — with the IncompleteUpload response when the
count of distinct received indices differs from `totalChunks`, and with the
chunk-read error otherwise — and in both cases no `FileRecord` is written
to the registry. -/
theorem complete_missing_index_fails (n : Nat) (events : List (Int × Bytes))
    (i : Nat) (hi : i < n) (hmiss : ∀ e ∈ events, e.1 ≠ (i : Int)) :
    ((∃ got, (runSession n events).outcome = CompleteOutcome.incomplete got n) ∨
      (runSession n events).outcome = CompleteOutcome.readError) ∧
    (runSession n events).recordWritten = false := by
  have hnot : (i : Int) ∉ events.map Prod.fst := by
    intro hc
    rcases List.mem_map.1 hc with ⟨e, he, hfst⟩
    exact hmiss e he hfst
  have hst : (runUploads (initSession n) emptyStore events).2 (i : Int) = none :=
    runUploads_store_not_sent _ _ _ _ hnot
  have hread : readChunks (runUploads (initSession n) emptyStore events).2
      (runUploads (initSession n) emptyStore events).1.totalChunks = none := by
    rw [runUploads_totalChunks]
    exact readChunks_missing _ _ _ hi hst
  have hrun : runSession n events =
      completeUpload (runUploads (initSession n) emptyStore events).1
        (runUploads (initSession n) emptyStore events).2 := rfl
  rw [hrun]
  unfold completeUpload
  by_cases hg : (runUploads (initSession n) emptyStore events).1.uploadedChunks.length ≠
      (runUploads (initSession n) emptyStore events).1.totalChunks
  · rw [if_pos hg]
    refine ⟨Or.inl ⟨(runUploads (initSession n) emptyStore events).1.uploadedChunks.length,
      ?_⟩, rfl⟩
    rw [runUploads_totalChunks]
    rfl
  · rw [if_neg hg, hread]
    exact ⟨Or.inr rfl, rfl⟩

theorem complete_missing_index_fails_witness :
    (1 : Nat) < 2 ∧
    ((∃ got, (runSession 2 [((0 : Int), [10])]).outcome =
        CompleteOutcome.incomplete got 2) ∨
      (runSession 2 [((0 : Int), [10])]).outcome = CompleteOutcome.readError) ∧
    (runSession 2 [((0 : Int), [10])]).recordWritten = false :=
  ⟨by decide, complete_missing_index_fails 2 [((0 : Int), [10])] 1 (by decide) (by decide)⟩

/-- C3 counterexample: when `complete()` fails with the IncompleteUpload
response, nothing is cleaned up — the early `return` sits before the `try`
block, so the chunk file of index `0` is still on disk and the
`uploadRegistry` session entry is still present. -/
theorem complete_incomplete_no_cleanup_counterexample :
    (completeUpload (ChunkMetadata.mk 2 [0]) (writeChunkFile emptyStore 0 [10])).sessionKept
        = true ∧
    (completeUpload (ChunkMetadata.mk 2 [0]) (writeChunkFile emptyStore 0 [10])).store 0
        = some [10] ∧
    (completeUpload (ChunkMetadata.mk 2 [0]) (writeChunkFile emptyStore 0 [10])).outcome
        = CompleteOutcome.incomplete 1 2 := by
  refine ⟨by decide, by decide, by decide⟩

/-- C3 amended: cleanup is tied to the completeness guard, not to the call:
whenever the guard passes (the count of received indices equals
`totalChunks`), both the success path and the error path remove the chunk
files of indices `0 .. totalChunks-1` and the session registry entry; when
the guard fails, `complete()` returns the IncompleteUpload response leaving
every chunk file and the session entry in place. -/
theorem complete_cleanup_iff_guard_passes (m : ChunkMetadata) (st : ChunkStore) :
    (m.uploadedChunks.length = m.totalChunks →
      (completeUpload m st).sessionKept = false ∧
      ∀ i : Nat, i < m.totalChunks → (completeUpload m st).store (i : Int) = none) ∧
    (m.uploadedChunks.length ≠ m.totalChunks →
      (completeUpload m st).sessionKept = true ∧
      (completeUpload m st).store = st) := by
  constructor
  · intro hg
    unfold completeUpload
    rw [if_neg (fun h => h hg)]
    cases hr : readChunks st m.totalChunks with
    | some chunks =>
      refine ⟨rfl, fun i hi => ?_⟩
      simp only [cleanupChunks]
      rw [if_pos]
      exact ⟨Int.ofNat_nonneg i, by exact_mod_cast hi⟩
    | none =>
      refine ⟨rfl, fun i hi => ?_⟩
      simp only [cleanupChunks]
      rw [if_pos]
      exact ⟨Int.ofNat_nonneg i, by exact_mod_cast hi⟩
  · intro hg
    unfold completeUpload
    rw [if_pos hg]
    exact ⟨rfl, rfl⟩

theorem complete_cleanup_iff_guard_passes_witness :
    ((completeUpload (ChunkMetadata.mk 1 [0]) (writeChunkFile emptyStore 0 [10])).sessionKept
        = false ∧
      (completeUpload (ChunkMetadata.mk 1 [0]) (writeChunkFile emptyStore 0 [10])).store 0
        = none) ∧
    ((completeUpload (ChunkMetadata.mk 2 [0]) (writeChunkFile emptyStore 0 [10])).sessionKept
        = true) :=
  ⟨⟨((complete_cleanup_iff_guard_passes (ChunkMetadata.mk 1 [0])
        (writeChunkFile emptyStore 0 [10])).1 (by decide)).1,
    ((complete_cleanup_iff_guard_passes (ChunkMetadata.mk 1 [0])
        (writeChunkFile emptyStore 0 [10])).1 (by decide)).2 0 (by decide)⟩,
    ((complete_cleanup_iff_guard_passes (ChunkMetadata.mk 2 [0])
        (writeChunkFile emptyStore 0 [10])).2 (by decide)).1⟩

end ChunkedUpload

namespace SingleShot

open JsString

theorem processUpload_uploadedBuffer (sharpEncode : Bytes → String → Option Bytes)
    (blobUrl : String → String) (fileId : String) (nowMs : Int)
    (fileName0 fileType : String) (fileBuffer : Bytes) :
    (processUpload sharpEncode blobUrl fileId nowMs fileName0 fileType fileBuffer).uploadedBuffer
      = (compressStep sharpEncode fileId (extOf fileName0)
          (fileId ++ "." ++ extOf fileName0) fileType fileBuffer).finalBuffer := rfl

theorem processUpload_record_compressed (sharpEncode : Bytes → String → Option Bytes)
    (blobUrl : String → String) (fileId : String) (nowMs : Int)
    (fileName0 fileType : String) (fileBuffer : Bytes) :
    (processUpload sharpEncode blobUrl fileId nowMs fileName0 fileType fileBuffer).record.compressed
      = (compressStep sharpEncode fileId (extOf fileName0)
          (fileId ++ "." ++ extOf fileName0) fileType fileBuffer).compressed := rfl

theorem processUpload_record_size (sharpEncode : Bytes → String → Option Bytes)
    (blobUrl : String → String) (fileId : String) (nowMs : Int)
    (fileName0 fileType : String) (fileBuffer : Bytes) :
    (processUpload sharpEncode blobUrl fileId nowMs fileName0 fileType fileBuffer).record.size
      = (compressStep sharpEncode fileId (extOf fileName0)
          (fileId ++ "." ++ extOf fileName0) fileType fileBuffer).finalBuffer.length := rfl

theorem processUpload_record_compressionRatio (sharpEncode : Bytes → String → Option Bytes)
    (blobUrl : String → String) (fileId : String) (nowMs : Int)
    (fileName0 fileType : String) (fileBuffer : Bytes) :
    (processUpload sharpEncode blobUrl fileId nowMs fileName0 fileType fileBuffer).record.compressionRatio
      = (if (compressStep sharpEncode fileId (extOf fileName0)
            (fileId ++ "." ++ extOf fileName0) fileType fileBuffer).compressed then
          some (round (compressStep sharpEncode fileId (extOf fileName0)
            (fileId ++ "." ++ extOf fileName0) fileType fileBuffer).ratio)
        else none) := rfl

theorem compressStep_cases (sharpEncode : Bytes → String → Option Bytes)
    (fileId ext fileName fileType : String) (fileBuffer : Bytes) :
    compressStep sharpEncode fileId ext fileName fileType fileBuffer =
      ⟨fileBuffer, fileName, false, 0⟩ ∨
    (∃ out, sharpEncode fileBuffer fileType = some out ∧
      out.length < fileBuffer.length ∧
      compressStep sharpEncode fileId ext fileName fileType fileBuffer =
        ⟨out, fileId ++ "_compressed." ++ ext, true,
          (((fileBuffer.length : ℚ) - (out.length : ℚ))
            / (fileBuffer.length : ℚ)) * 100⟩) := by
  cases hs : sharpEncode fileBuffer fileType with
  | none =>
    left
    unfold compressStep
    simp only [compressImage, hs]
    split_ifs <;> rfl
  | some out =>
    unfold compressStep
    simp only [compressImage, hs]
    split_ifs with h1 h2 h3
    · left; rfl
    · right; exact ⟨out, rfl, h3.2, rfl⟩
    · left; rfl
    · left; rfl

theorem processUpload_spec (sharpEncode : Bytes → String → Option Bytes)
    (blobUrl : String → String) (fileId : String) (nowMs : Int)
    (fileName0 fileType : String) (buf : Bytes) :
    ((processUpload sharpEncode blobUrl fileId nowMs fileName0 fileType buf).uploadedBuffer
        = buf ∧
      (processUpload sharpEncode blobUrl fileId nowMs fileName0 fileType buf).record.compressed
        = false ∧
      (processUpload sharpEncode blobUrl fileId nowMs fileName0 fileType buf).record.compressionRatio
        = none) ∨
    (∃ out, sharpEncode buf fileType = some out ∧ out.length < buf.length ∧
      (processUpload sharpEncode blobUrl fileId nowMs fileName0 fileType buf).uploadedBuffer
        = out ∧
      (processUpload sharpEncode blobUrl fileId nowMs fileName0 fileType buf).record.compressed
        = true ∧
      (processUpload sharpEncode blobUrl fileId nowMs fileName0 fileType buf).record.size
        = out.length ∧
      (processUpload sharpEncode blobUrl fileId nowMs fileName0 fileType buf).record.compressionRatio
        = some (round ((((buf.length : ℚ) - (out.length : ℚ)) / (buf.length : ℚ)) * 100))) := by
  rcases compressStep_cases sharpEncode fileId (extOf fileName0)
      (fileId ++ "." ++ extOf fileName0) fileType buf with h | ⟨out, hs, hlt, h⟩
  · left
    simp only [processUpload]
    rw [h]
    exact ⟨rfl, rfl, rfl⟩
  · right
    refine ⟨out, hs, hlt, ?_, ?_, ?_, ?_⟩ <;> (simp only [processUpload]; rw [h]; try rfl)

/-- C5: for every input buffer and every possible behaviour of the sharp
encoder, the stored buffer is never larger than the input, and when the
internal compression fails, the original buffer is uploaded unchanged with
`compressed = false` instead of failing the upload. -/
theorem stored_buffer_never_larger (sharpEncode : Bytes → String → Option Bytes)
    (blobUrl : String → String) (fileId : String) (nowMs : Int)
    (fileName0 fileType : String) (buf : Bytes) :
    (processUpload sharpEncode blobUrl fileId nowMs fileName0 fileType buf).uploadedBuffer.length
        ≤ buf.length ∧
    (sharpEncode buf fileType = none →
      (processUpload sharpEncode blobUrl fileId nowMs fileName0 fileType buf).uploadedBuffer
          = buf ∧
      (processUpload sharpEncode blobUrl fileId nowMs fileName0 fileType buf).record.compressed
          = false) := by
  rcases processUpload_spec sharpEncode blobUrl fileId nowMs fileName0 fileType buf with
    ⟨hb, hc, _⟩ | ⟨out, hs, hlt, hb, _, _, _⟩
  · exact ⟨by rw [hb], fun _ => ⟨hb, hc⟩⟩
  · refine ⟨by rw [hb]; exact Nat.le_of_lt hlt, fun hnone => ?_⟩
    rw [hs] at hnone
    cases hnone

theorem stored_buffer_never_larger_witness :
    ((fun _ _ => none : Bytes → String → Option Bytes) [1, 2] "image/png" = none) ∧
    (processUpload (fun _ _ => none) (fun _ => "") "7" 0 "x.png" "image/png" [1, 2]).uploadedBuffer
        = [1, 2] ∧
    (processUpload (fun _ _ => none) (fun _ => "") "7" 0 "x.png" "image/png" [1, 2]).record.compressed
        = false :=
  ⟨rfl, (stored_buffer_never_larger (fun _ _ => none) (fun _ => "") "7" 0 "x.png"
    "image/png" [1, 2]).2 rfl⟩

/-- C4 counterexample: `bigImage` is an image payload larger than 1 MB;
completing a chunked upload of it hands the assembled buffer to the blob
store unchanged, while a single-shot upload of the same payload under an
encoder that shrinks it stores a different (recompressed) buffer — the
chunked path is not "recompressed just as on the single-shot path". -/
theorem chunked_path_skips_compression_counterexample :
    strStartsWith "image/jpeg" "image/" = true ∧
    bigImage.length > 1024 * 1024 ∧
    (ChunkedUpload.runSession 1 [((0 : Int), bigImage)]).outcome =
      ChunkedUpload.CompleteOutcome.ok bigImage ∧
    (processUpload shrinkEncoder (fun _ => "u") "1" 0 "a.jpg" "image/jpeg"
        bigImage).record.compressed = true ∧
    (processUpload shrinkEncoder (fun _ => "u") "1" 0 "a.jpg" "image/jpeg"
        bigImage).uploadedBuffer ≠ bigImage := by
  have hlen : bigImage.length = 1024 * 1024 + 1 := by
    unfold bigImage
    rw [List.length_replicate]
  have hvid : strStartsWith "image/jpeg" "video/" = false := by decide
  have him : strStartsWith "image/jpeg" "image/" = true := by decide
  have hstep : (compressStep shrinkEncoder "1" (extOf "a.jpg")
        ("1" ++ "." ++ extOf "a.jpg") "image/jpeg" bigImage).finalBuffer = [0] ∧
      (compressStep shrinkEncoder "1" (extOf "a.jpg")
        ("1" ++ "." ++ extOf "a.jpg") "image/jpeg" bigImage).compressed = true := by
    unfold compressStep
    simp only [compressImage, shrinkEncoder, hvid, him, hlen]
    norm_num
  refine ⟨by decide, by rw [hlen]; norm_num, ?_, ?_, ?_⟩
  · simp [ChunkedUpload.runSession, ChunkedUpload.runUploads, ChunkedUpload.uploadChunk,
      ChunkedUpload.completeUpload, ChunkedUpload.readChunks, ChunkedUpload.writeChunkFile,
      ChunkedUpload.emptyStore, ChunkedUpload.initSession]
  · rw [processUpload_record_compressed]
    exact hstep.2
  · rw [processUpload_uploadedBuffer, hstep.1]
    intro hc
    have hl := congrArg List.length hc
    rw [hlen] at hl
    norm_num at hl

/-- C4 amended: the chunked completion path performs no compression at
all: whenever `complete()` passes the completeness guard and every chunk
file is readable, the uploaded buffer is exactly the concatenation of the
stored chunks, for every MIME type and size; the compression pipeline runs
only on the single-shot upload path. -/
theorem chunked_complete_uploads_raw_concat (m : ChunkedUpload.ChunkMetadata)
    (st : ChunkedUpload.ChunkStore) (chunks : List ChunkedUpload.Bytes)
    (hg : m.uploadedChunks.length = m.totalChunks)
    (hr : ChunkedUpload.readChunks st m.totalChunks = some chunks) :
    (ChunkedUpload.completeUpload m st).outcome =
      ChunkedUpload.CompleteOutcome.ok chunks.flatten := by
  unfold ChunkedUpload.completeUpload
  rw [if_neg (fun h => h hg), hr]

/-- C6 counterexample: uploading a 2 MB JPEG through the handler with an
encoder that halves it persists `compressed = true` and
`compressionRatio = 50` — `Math.round` of the percentage — while the
claimed value `(originalSize - compressedSize) / originalSize` is `1/2`,
and `1/2 ≠ 50`. -/
theorem compression_ratio_not_fraction_counterexample :
    (processUpload halfEncoder (fun _ => "u") "2" 0 "b.jpg" "image/jpeg"
        img2MB).record.compressed = true ∧
    (processUpload halfEncoder (fun _ => "u") "2" 0 "b.jpg" "image/jpeg"
        img2MB).record.compressionRatio = some 50 ∧
    ((img2MB.length : ℚ) -
        ((processUpload halfEncoder (fun _ => "u") "2" 0 "b.jpg" "image/jpeg"
          img2MB).record.size : ℚ)) / (img2MB.length : ℚ) = 1 / 2 ∧
    (1 : ℚ) / 2 ≠ 50 := by
  have hlen2 : img2MB.length = 2 * 1024 * 1024 := by
    unfold img2MB
    rw [List.length_replicate]
  have hout : (List.replicate (1024 * 1024) (0 : Nat)).length = 1024 * 1024 := by
    rw [List.length_replicate]
  have hvid : strStartsWith "image/jpeg" "video/" = false := by decide
  have him : strStartsWith "image/jpeg" "image/" = true := by decide
  have hstep : (compressStep halfEncoder "2" (extOf "b.jpg")
        ("2" ++ "." ++ extOf "b.jpg") "image/jpeg" img2MB).finalBuffer
          = List.replicate (1024 * 1024) 0 ∧
      (compressStep halfEncoder "2" (extOf "b.jpg")
        ("2" ++ "." ++ extOf "b.jpg") "image/jpeg" img2MB).compressed = true ∧
      (compressStep halfEncoder "2" (extOf "b.jpg")
        ("2" ++ "." ++ extOf "b.jpg") "image/jpeg" img2MB).ratio = 50 := by
    unfold compressStep
    simp only [compressImage, halfEncoder, hvid, him, hlen2, hout]
    norm_num
  refine ⟨?_, ?_, ?_, by norm_num⟩
  · rw [processUpload_record_compressed]
    exact hstep.2.1
  · rw [processUpload_record_compressionRatio, hstep.2.1, hstep.2.2]
    norm_num [round_eq]
  · rw [processUpload_record_size, hstep.1, hout, hlen2]
    norm_num

/-- C6 amended: whenever compression is applied, the persisted record has
`compressed = true` and `compressionRatio` equal to `Math.round` of the
percentage `((originalSize - compressedSize) / originalSize) * 100`, where
`compressedSize` is the persisted `size`; the raw fraction
`(originalSize - compressedSize) / originalSize` itself is not what is
stored. -/
theorem compression_ratio_is_rounded_percentage
    (sharpEncode : Bytes → String → Option Bytes)
    (blobUrl : String → String) (fileId : String) (nowMs : Int)
    (fileName0 fileType : String) (buf : Bytes)
    (hc : (processUpload sharpEncode blobUrl fileId nowMs fileName0 fileType
      buf).record.compressed = true) :
    (processUpload sharpEncode blobUrl fileId nowMs fileName0 fileType
        buf).record.compressionRatio =
      some (round ((((buf.length : ℚ) -
          ((processUpload sharpEncode blobUrl fileId nowMs fileName0 fileType
            buf).record.size : ℚ)) / (buf.length : ℚ)) * 100)) := by
  rcases processUpload_spec sharpEncode blobUrl fileId nowMs fileName0 fileType buf with
    ⟨_, hcf, _⟩ | ⟨out, _, _, _, _, hsize, hratio⟩
  · rw [hcf] at hc
    cases hc
  · rw [hsize, hratio]

theorem compression_ratio_is_rounded_percentage_witness :
    ((processUpload halfEncoder (fun _ => "u") "3" 0 "c.jpg" "image/jpeg"
        img2MB).record.compressed = true) ∧
    (processUpload halfEncoder (fun _ => "u") "3" 0 "c.jpg" "image/jpeg"
        img2MB).record.compressionRatio =
      some (round ((((img2MB.length : ℚ) -
          ((processUpload halfEncoder (fun _ => "u") "3" 0 "c.jpg" "image/jpeg"
            img2MB).record.size : ℚ)) / (img2MB.length : ℚ)) * 100)) := by
  have hvid : strStartsWith "image/jpeg" "video/" = false := by decide
  have him : strStartsWith "image/jpeg" "image/" = true := by decide
  have hlen2 : img2MB.length = 2 * 1024 * 1024 := by
    unfold img2MB
    rw [List.length_replicate]
  have hout : (List.replicate (1024 * 1024) (0 : Nat)).length = 1024 * 1024 := by
    rw [List.length_replicate]
  have hc : (processUpload halfEncoder (fun _ => "u") "3" 0 "c.jpg" "image/jpeg"
      img2MB).record.compressed = true := by
    rw [processUpload_record_compressed]
    unfold compressStep
    simp only [compressImage, halfEncoder, hvid, him, hlen2, hout]
    norm_num
  exact ⟨hc, compression_ratio_is_rounded_percentage halfEncoder (fun _ => "u")
    "3" 0 "c.jpg" "image/jpeg" img2MB hc⟩

theorem chunked_complete_uploads_raw_concat_witness :
    ((ChunkedUpload.ChunkMetadata.mk 1 [0]).uploadedChunks.length =
      (ChunkedUpload.ChunkMetadata.mk 1 [0]).totalChunks) ∧
    (ChunkedUpload.completeUpload (ChunkedUpload.ChunkMetadata.mk 1 [0])
        (ChunkedUpload.writeChunkFile ChunkedUpload.emptyStore 0 [9])).outcome =
      ChunkedUpload.CompleteOutcome.ok ([[9]] : List ChunkedUpload.Bytes).flatten :=
  ⟨by decide,
    chunked_complete_uploads_raw_concat (ChunkedUpload.ChunkMetadata.mk 1 [0])
      (ChunkedUpload.writeChunkFile ChunkedUpload.emptyStore 0 [9]) [[9]]
      (by decide) (by decide)⟩

end SingleShot

namespace BlobStoreProofs

open BlobStore

/-- C7 counterexample: with a lookup failing on an authentication error
and a creation call that succeeds, the get-or-create block silently creates
the release — the lookup failure neither propagates nor is distinguished
from "not found". -/
theorem ensure_creates_on_auth_error_counterexample :
    ensureRelease (Except.error ApiError.authError) (Except.ok (Release.mk 42)) =
      EnsureOutcome.created (Release.mk 42) := rfl

/-- C7 amended: the block attempts creation whenever the lookup fails for
any reason — not-found, authentication and network failures alike — so a
lookup failure never propagates to the caller; only a failure of the
subsequent creation call does.  A successful lookup never triggers
creation. -/
theorem ensureRelease_catches_every_lookup_error (e : ApiError)
    (c : Except ApiError Release) (r : Release) :
    (∀ r2, c = Except.ok r2 → ensureRelease (Except.error e) c = EnsureOutcome.created r2) ∧
    (∀ e2, c = Except.error e2 →
      ensureRelease (Except.error e) c = EnsureOutcome.creationFailed e2) ∧
    ensureRelease (Except.ok r) c = EnsureOutcome.gotExisting r := by
  refine ⟨?_, ?_, rfl⟩
  · intro r2 hc
    rw [hc]
    rfl
  · intro e2 hc
    rw [hc]
    rfl

theorem ensureRelease_catches_every_lookup_error_witness :
    (Except.ok (Release.mk 7) : Except ApiError Release) = Except.ok (Release.mk 7) ∧
    ensureRelease (Except.error ApiError.networkError) (Except.ok (Release.mk 7)) =
      EnsureOutcome.created (Release.mk 7) :=
  ⟨rfl, (ensureRelease_catches_every_lookup_error ApiError.networkError
    (Except.ok (Release.mk 7)) (Release.mk 7)).1 (Release.mk 7) rfl⟩

end BlobStoreProofs

namespace Naming

theorem data_append_sep_inj (l1 : List Char) :
    ∀ (l2 r1 r2 : List Char), '.' ∉ l1 → '.' ∉ l2 →
      l1 ++ '.' :: r1 = l2 ++ '.' :: r2 → l1 = l2 := by
  induction l1 with
  | nil =>
    intro l2 r1 r2 h1 h2 he
    cases l2 with
    | nil => rfl
    | cons b t =>
      simp only [List.nil_append, List.cons_append, List.cons.injEq] at he
      obtain ⟨hb, -⟩ := he
      exact absurd (show ('.' : Char) ∈ b :: t by
        rw [← hb]
        exact List.mem_cons_self _ _) h2
  | cons a t1 ih =>
    intro l2 r1 r2 h1 h2 he
    cases l2 with
    | nil =>
      simp only [List.cons_append, List.nil_append, List.cons.injEq] at he
      obtain ⟨ha, -⟩ := he
      exact absurd (show ('.' : Char) ∈ a :: t1 by
        rw [ha]
        exact List.mem_cons_self _ _) h1
    | cons b t2 =>
      simp only [List.cons_append, List.cons.injEq] at he
      obtain ⟨hab, ht⟩ := he
      have h1' : ('.' : Char) ∉ t1 := fun hm => h1 (List.mem_cons_of_mem a hm)
      have h2' : ('.' : Char) ∉ t2 := fun hm => h2 (List.mem_cons_of_mem b hm)
      rw [hab, ih t2 r1 r2 h1' h2' ht]

/-- C8 counterexample: two distinct upload attempts that land in the same
millisecond (`Date.now()` returns the same id string) and carry different
original file names with the same extension are assigned the same stored
asset name. -/
theorem same_millisecond_names_collide_counterexample :
    generateFileName "1000" "photo.png" = generateFileName "1000" "diagram.png" ∧
    ("photo.png" : String) ≠ "diagram.png" := by
  exact ⟨rfl, by decide⟩

/-- C8 amended: stored asset names are distinct whenever the millisecond
timestamps of the two attempts differ — the decimal id string contains no
dot, so it is recoverable as the segment before the first dot of the name —
but two attempts in the same millisecond with the same extension collide. -/
theorem distinct_timestamps_distinct_names (id1 id2 n1 n2 : String)
    (h1 : '.' ∉ id1.data) (h2 : '.' ∉ id2.data) (hne : id1 ≠ id2) :
    generateFileName id1 n1 ≠ generateFileName id2 n2 := by
  intro he
  apply hne
  have hd := congrArg String.data he
  simp only [generateFileName, String.data_append] at hd
  rw [List.append_assoc, List.append_assoc] at hd
  rw [List.singleton_append, List.singleton_append] at hd
  exact String.ext (data_append_sep_inj id1.data id2.data _ _ h1 h2 hd)

theorem distinct_timestamps_distinct_names_witness :
    ('.' ∉ ("1000" : String).data) ∧ ('.' ∉ ("1001" : String).data) ∧
    ("1000" : String) ≠ "1001" ∧
    generateFileName "1000" "a.png" ≠ generateFileName "1001" "b.jpg" :=
  ⟨by decide, by decide, by decide,
    distinct_timestamps_distinct_names "1000" "1001" "a.png" "b.jpg"
      (by decide) (by decide) (by decide)⟩

end Naming

namespace Registry

theorem cleanupPass_subset (now : Int) (snapshot : List FileRecord) :
    ∀ (reg : List FileRecord) (x : FileRecord),
      x ∈ cleanupPass now reg snapshot → x ∈ reg := by
  induction snapshot with
  | nil => intro reg x hx; exact hx
  | cons f t ih =>
    intro reg x hx
    have hx' : x ∈ (if f.expiryDate ≤ now then deleteFileFromRegistry reg f.id else reg) :=
      ih _ x hx
    by_cases hc : f.expiryDate ≤ now
    · rw [if_pos hc] at hx'
      exact List.mem_of_mem_filter hx'
    · rw [if_neg hc] at hx'
      exact hx'

theorem cleanupPass_removes (now : Int) (snapshot : List FileRecord) :
    ∀ (reg : List FileRecord) (f x : FileRecord),
      f ∈ snapshot → f.expiryDate ≤ now →
      x ∈ cleanupPass now reg snapshot → x.id ≠ f.id := by
  induction snapshot with
  | nil => intro reg f x hf; cases hf
  | cons g t ih =>
    intro reg f x hf hexp hx
    rcases List.mem_cons.1 hf with hfg | hft
    · subst hfg
      have hx' : x ∈ (if f.expiryDate ≤ now then deleteFileFromRegistry reg f.id else reg) :=
        cleanupPass_subset now t _ x hx
      rw [if_pos hexp] at hx'
      simpa using (List.mem_filter.1 hx').2
    · exact ih _ f x hft hexp hx

theorem mem_cleanup_not_expired (reg : List FileRecord) (now : Int) (x : FileRecord)
    (hx : x ∈ cleanupExpiredFiles reg now) : x ∈ reg ∧ ¬ x.expiryDate ≤ now := by
  refine ⟨cleanupPass_subset now reg reg x hx, fun hexp => ?_⟩
  exact cleanupPass_removes now reg reg x x
    (cleanupPass_subset now reg reg x hx) hexp hx rfl

/-- C9: after a GC-triggering `list()` call, every registry record whose
expiry date has passed is absent from the returned list, and resolving its
stored name against the post-GC registry yields the not-found response,
even though the record was never explicitly deleted.  (The alias hypothesis
rules out an unrelated live record that happens to share the stored name;
the name hypothesis says the stored name passes the route's filename
validation, which names of the form `id.ext` always do.) -/
theorem expired_absent_after_gc (reg : List FileRecord) (now : Int) (r : FileRecord)
    (_hmem : r ∈ reg) (hexp : r.expiryDate ≤ now)
    (halias : ∀ f ∈ reg, f.fileName = r.fileName → f.expiryDate ≤ now)
    (hname : ¬(r.fileName = "" ∨ JsString.includesDotDot r.fileName = true)) :
    r ∉ listFiles reg now ∧
    resolveFile (listFiles reg now) r.fileName now = ResolveResult.notFound := by
  have hsurv : ∀ x ∈ listFiles reg now, x ∈ reg ∧ ¬ x.expiryDate ≤ now :=
    fun x hx => mem_cleanup_not_expired reg now x hx
  constructor
  · intro hr
    exact (hsurv r hr).2 hexp
  · unfold resolveFile
    rw [if_neg hname]
    cases hf : getFileByFilename (listFiles reg now) r.fileName with
    | none => rfl
    | some f =>
      exfalso
      have hfmem : f ∈ listFiles reg now := List.mem_of_find?_eq_some hf
      have hfname : f.fileName = r.fileName := by
        simpa using List.find?_some hf
      exact (hsurv f hfmem).2 (halias f (hsurv f hfmem).1 hfname)

theorem expired_absent_after_gc_witness :
    (FileRecord.mk "1" "a" "1.png" 3 "image/png" 0 10 "u") ∈
      [FileRecord.mk "1" "a" "1.png" 3 "image/png" 0 10 "u"] ∧
    (FileRecord.mk "1" "a" "1.png" 3 "image/png" 0 10 "u").expiryDate ≤ 10 ∧
    (FileRecord.mk "1" "a" "1.png" 3 "image/png" 0 10 "u") ∉
      listFiles [FileRecord.mk "1" "a" "1.png" 3 "image/png" 0 10 "u"] 10 ∧
    resolveFile (listFiles [FileRecord.mk "1" "a" "1.png" 3 "image/png" 0 10 "u"] 10)
      "1.png" 10 = ResolveResult.notFound := by
  have h := expired_absent_after_gc
    [FileRecord.mk "1" "a" "1.png" 3 "image/png" 0 10 "u"] 10
    (FileRecord.mk "1" "a" "1.png" 3 "image/png" 0 10 "u")
    (by decide) (by decide) (by decide) (by decide)
  exact ⟨by decide, by decide, h.1, h.2⟩

end Registry
